import Mathlib

/-!
Verification of the phylogenetic-tree engine of the Eudicots repository.

The repository's scripts operate on rooted phylogenetic trees (Newick format)
through the `ete3` / `Bio.Phylo` libraries.  We embed the tree data model and
the operations used by the scripts:

* `02.Construct_gene_trees/06.prune_tree_nodes.py` — the pruning loop that
  removes named nodes and reconnects siblings (with `ete3` `detach`,
  `add_child`, `delete` semantics);
* `01.Shared_whole-genome_polyploidy_statistics/02.wgd_tree_stat.py` — the WGD
  classification loop (skip / Independent / Shared / Uncertain);
* `04.wgt_tree_stat.py` — the WGT classification loop (NonShared / Shared);
* `04.filter_trees_by_support.py` — regex extraction of internal-node support
  values and branch lengths, and the threshold filter;
* `05.filter-orders.py` — the group-coverage filter `check_tree_for_groups`.

Branch lengths are modelled as rationals (the spec's data model calls them
non-negative reals; the Python floats of the source are an implementation of
that intent).
-/

/-- Rooted tree with a node name, a branch length (`dist`, distance to the
parent) and an ordered list of children.  This models an `ete3.TreeNode`
(attributes `name`, `dist`, `children`); a node with no children is a leaf. -/
inductive NTree where
  | node (name : String) (dist : ℚ) (children : List NTree)

/-- Node name accessor (`ete3` attribute `name`). -/
def NTree.name : NTree → String
  | .node n _ _ => n

/-- Branch length accessor (`ete3` attribute `dist`). -/
def NTree.dist : NTree → ℚ
  | .node _ d _ => d

/-- Children accessor (`ete3` attribute `children`). -/
def NTree.children : NTree → List NTree
  | .node _ _ cs => cs

mutual

/-- Names of the leaves of a tree in depth-first order, modelling
`[l.name for l in t.iter_leaves()]`; a childless root is itself a leaf,
as in `ete3`. -/
def NTree.leafNames : NTree → List String
  | .node n _ [] => [n]
  | .node _ _ (c :: cs) => NTree.leafNamesL (c :: cs)

/-- Leaf names of a forest, in order. -/
def NTree.leafNamesL : List NTree → List String
  | [] => []
  | c :: cs => NTree.leafNames c ++ NTree.leafNamesL cs

end

mutual

/-- Names of all nodes of a tree (internal nodes included), preorder. -/
def NTree.nodeNames : NTree → List String
  | .node n _ cs => n :: NTree.nodeNamesL cs

/-- Node names of a forest, in order. -/
def NTree.nodeNamesL : List NTree → List String
  | [] => []
  | c :: cs => NTree.nodeNames c ++ NTree.nodeNamesL cs

end

mutual

/-- Sum of all `dist` fields of a tree. -/
def NTree.totalDist : NTree → ℚ
  | .node _ d cs => d + NTree.totalDistL cs

/-- Sum of all `dist` fields of a forest. -/
def NTree.totalDistL : List NTree → ℚ
  | [] => 0
  | c :: cs => NTree.totalDist c + NTree.totalDistL cs

end

mutual

/-- For every leaf of the tree, its name paired with the sum of branch
lengths on the path from the tree's attachment point (the edge above the
root of this subtree is included) down to that leaf. -/
def NTree.leafDepths : NTree → List (String × ℚ)
  | .node n d [] => [(n, d)]
  | .node _ d (c :: cs) =>
      (NTree.leafDepthsL (c :: cs)).map (fun e => (e.1, d + e.2))

/-- Leaf depths of a forest, in order. -/
def NTree.leafDepthsL : List NTree → List (String × ℚ)
  | [] => []
  | c :: cs => NTree.leafDepths c ++ NTree.leafDepthsL cs

end

mutual

/-- Paths (lists of child indices, root = `[]`) of all nodes whose name is
`nm`, modelling `t.search_nodes(name=nm)`.  The traversal order is
depth-first; the pruning claims below only involve names matched by at most
one node, for which the order is irrelevant. -/
def NTree.searchPaths (nm : String) : NTree → List (List Nat)
  | .node n _ cs =>
      (if n = nm then [[]] else []) ++ NTree.searchPathsL nm 0 cs

/-- Search the trees of a forest, the first one having child index `i`. -/
def NTree.searchPathsL (nm : String) : Nat → List NTree → List (List Nat)
  | _, [] => []
  | i, c :: cs =>
      (NTree.searchPaths nm c).map (i :: ·) ++ NTree.searchPathsL nm (i + 1) cs

end

/-- Structural induction over `NTree` with the hypothesis available for every
member of the children list. -/
theorem NTree.inductionOn {motive : NTree → Prop}
    (h : ∀ n d cs, (∀ c ∈ cs, motive c) → motive (.node n d cs)) :
    ∀ t, motive t :=
  fun t =>
    @NTree.rec motive (fun cs => ∀ c ∈ cs, motive c)
      (fun n d cs ih => h n d cs ih)
      (fun _ hc => absurd hc (List.not_mem_nil _))
      (fun _ _ ihc ihcs x hx => by
        cases hx with
        | head => exact ihc
        | tail _ h2 => exact ihcs x h2)
      t

/-- Number of leaves of the tree whose name belongs to `S` (the cached
leaf-content counting that `ete3.check_monophyly` relies on). -/
def NTree.countIn (S : Finset String) (t : NTree) : Nat :=
  (t.leafNames.filter (fun n => n ∈ S)).length

/-- Fuel-indexed descent to the common ancestor of all leaves whose name is
in `S`: step to the unique child that still contains every such leaf
(its count equals the whole tree's count), stop when no child does.  The
fuel only bounds the recursion depth; called with fuel at least the node
count of the tree it computes `ete3`'s `get_common_ancestor` of the matching
leaves. -/
def NTree.lcaGo (S : Finset String) : Nat → NTree → NTree
  | 0, t => t
  | fuel + 1, t =>
      match t.children.find? (fun c => c.countIn S = t.countIn S) with
      | some c => NTree.lcaGo S fuel c
      | none => t

/-- Minimal subtree of `t` containing every leaf whose name is in `S`
(the common ancestor used by `ete3.check_monophyly`). -/
def NTree.lcaSubtree (S : Finset String) (t : NTree) : NTree :=
  NTree.lcaGo S t.nodeNames.length t

/-- Monophyly test, modelling `ete3` `TreeNode.check_monophyly(values=S,
target_attr="name")[0]`: locate the common ancestor of all leaves named in
`S` and return `true` iff that ancestor has no foreign leaf (no leaf whose
name is outside `S`).  The scripts only call it with `S` a nonempty subset
of the tree's leaf names, so the `ValueError` branch of the library (a
requested name missing from the tree) cannot trigger. -/
def NTree.check_monophyly (t : NTree) (S : Finset String) : Bool :=
  ((t.lcaSubtree S).leafNames).all (fun n => decide (n ∈ S))

/-- Set of leaf names of a tree: `set(l.name for l in t.iter_leaves())`. -/
def NTree.leafSet (t : NTree) : Finset String :=
  t.leafNames.toFinset

/-- Outcome of the WGD classification loop of `02.wgd_tree_stat.py` for one
tree: skipped (fewer than 2 copies of a species present), or counted as
Independent / Shared / Uncertain. -/
inductive WgdCat where
  | skip
  | independent
  | shared
  | uncertain
deriving DecidableEq

/-- Per-tree body of the WGD classification loop
(`02.wgd_tree_stat.py`): compute the copies of each species present, skip
the tree when either species has fewer than 2 copies present, otherwise
classify by the two monophyly tests. -/
def wgdClassify (A B : Finset String) (t : NTree) : WgdCat :=
  if (A ∩ t.leafSet).card < 2 ∨ (B ∩ t.leafSet).card < 2 then .skip
  else if t.check_monophyly (A ∩ t.leafSet) ∧ t.check_monophyly (B ∩ t.leafSet)
    then .independent
  else if ¬t.check_monophyly (A ∩ t.leafSet) ∧ ¬t.check_monophyly (B ∩ t.leafSet)
    then .shared
  else .uncertain

/-- Outcome of the WGT classification loop of `04.wgt_tree_stat.py` for one
tree. -/
inductive WgtCat where
  | nonShared
  | shared
deriving DecidableEq

/-- Effective monophyly value used by `04.wgt_tree_stat.py`:
`t.check_monophyly(values=s_here, ...)[0] if len(s_here) > 1 else True`. -/
def wgtMono (S : Finset String) (t : NTree) : Bool :=
  if 1 < (S ∩ t.leafSet).card then t.check_monophyly (S ∩ t.leafSet) else true

/-- Per-tree body of the WGT classification loop (`04.wgt_tree_stat.py`):
every parsed tree is classified, with a presence count of at most one
treated as monophyletic. -/
def wgtClassify (A B : Finset String) (t : NTree) : WgtCat :=
  if wgtMono A t ∨ wgtMono B t then .nonShared else .shared

/-- Per-file counters of the WGD loop. -/
structure WgdStats where
  total : Nat
  independent : Nat
  shared : Nat
  uncertain : Nat

/-- One iteration of the WGD per-tree loop.  `none` models a tree string on
which `Tree(t_str, format=1)` raised (the `except: continue` path); a
skipped tree leaves every counter unchanged, a counted tree increments
`total` and exactly one category. -/
def wgdStep (A B : Finset String) (st : WgdStats) (pt : Option NTree) : WgdStats :=
  match pt with
  | none => st
  | some t =>
      match wgdClassify A B t with
      | .skip => st
      | .independent =>
          ⟨st.total + 1, st.independent + 1, st.shared, st.uncertain⟩
      | .shared =>
          ⟨st.total + 1, st.independent, st.shared + 1, st.uncertain⟩
      | .uncertain =>
          ⟨st.total + 1, st.independent, st.shared, st.uncertain + 1⟩

/-- The WGD per-file loop over the parse results of the file's trees. -/
def wgdRun (A B : Finset String) (ts : List (Option NTree)) : WgdStats :=
  ts.foldl (wgdStep A B) ⟨0, 0, 0, 0⟩

/-- Per-file counters of the WGT loop. -/
structure WgtStats where
  total : Nat
  nonShared : Nat
  shared : Nat

/-- One iteration of the WGT per-tree loop: a parse failure is skipped
before `total` is incremented; every parsed tree is counted in exactly one
of the two categories. -/
def wgtStep (A B : Finset String) (st : WgtStats) (pt : Option NTree) : WgtStats :=
  match pt with
  | none => st
  | some t =>
      match wgtClassify A B t with
      | .nonShared => ⟨st.total + 1, st.nonShared + 1, st.shared⟩
      | .shared => ⟨st.total + 1, st.nonShared, st.shared + 1⟩

/-- The WGT per-file loop over the parse results of the file's trees. -/
def wgtRun (A B : Finset String) (ts : List (Option NTree)) : WgtStats :=
  ts.foldl (wgtStep A B) ⟨0, 0, 0⟩

/-- One output row of `WGD_support_summary.txt` (the two ratios are kept as
rationals; the script formats them with four decimals). -/
structure WgdRow where
  file : String
  total : Nat
  independent : Nat
  shared : Nat
  uncertain : Nat
  ratioInd : ℚ
  ratioShared : ℚ

/-- The WGD summary writer (`if total > 0: out.write(...)`): a row is
produced only when at least one tree of the file was counted. -/
def wgdSummaryRow (file : String) (st : WgdStats) : Option WgdRow :=
  if 0 < st.total then
    some ⟨file, st.total, st.independent, st.shared, st.uncertain,
      (st.independent : ℚ) / st.total, (st.shared : ℚ) / st.total⟩
  else none

/-- One output row of `WGT_support_summary.txt`. -/
structure WgtRow where
  file : String
  total : Nat
  nonShared : Nat
  ratioNonShared : ℚ
  shared : Nat
  ratioShared : ℚ

/-- The WGT summary writer: the row is written unconditionally, with both
ratios set to 0 when `total` is 0 (`else: ratio_non_shared = ratio_shared
= 0`). -/
def wgtSummaryRow (file : String) (st : WgtStats) : WgtRow :=
  if 0 < st.total then
    ⟨file, st.total, st.nonShared, (st.nonShared : ℚ) / st.total,
      st.shared, (st.shared : ℚ) / st.total⟩
  else
    ⟨file, st.total, st.nonShared, 0, st.shared, 0⟩

/-- Pruning surgery of `06.prune_tree_nodes.py` when the matched node is a
child of the root `t` (its parent has no parent).  `i` is the child index of
the matched node `x`.  With exactly one sibling, the sibling is detached and
becomes the new root (`t = siblings[0]`); otherwise `x.delete()` removes `x`
from the root and appends `x`'s children to it (the non-dichotomy cascade on
a root with fewer than 2 children is a no-op because the root has no
parent). -/
def pruneTop (t : NTree) (i : Nat) : NTree :=
  match t.children[i]? with
  | none => t
  | some x =>
      match t.children.eraseIdx i with
      | [s] => s
      | _ => .node t.name t.dist (t.children.eraseIdx i ++ x.children)

/-- Pruning surgery of `06.prune_tree_nodes.py` at the grandparent `g` of the
matched node: `i` is the child index of the parent `p` in `g`, `j` the child
index of the matched node `x` in `p`.  With exactly one sibling `s`, the
script detaches `s` and reattaches it to `g` with branch length
`p.dist + s.dist`; then `x.delete()` (with `prevent_nondicotomic=True`)
hoists `x`'s children into `p` and, when `p` is left with fewer than 2
children, hoists those into `g` and removes `p`.  Children appended by
`add_child` go to the end of the child list. -/
def pruneGrand (g : NTree) (i j : Nat) : NTree :=
  match g.children[i]? with
  | none => g
  | some p =>
      match p.children[j]? with
      | none => g
      | some x =>
          match p.children.eraseIdx j with
          | [s] =>
              let s' : NTree := .node s.name (p.dist + s.dist) s.children
              if x.children.length < 2 then
                .node g.name g.dist (g.children.eraseIdx i ++ [s'] ++ x.children)
              else
                .node g.name g.dist
                  ((g.children.set i (.node p.name p.dist x.children)) ++ [s'])
          | sibs =>
              let pc := sibs ++ x.children
              if pc.length < 2 then
                .node g.name g.dist (g.children.eraseIdx i ++ pc)
              else
                .node g.name g.dist (g.children.set i (.node p.name p.dist pc))

/-- Apply the per-matched-node body of the pruning loop to the node at the
given path.  A root match has no parent and is skipped (`if parent:`); a
depth-1 match is handled by `pruneTop`, a deeper match by `pruneGrand` at
the matched node's grandparent, reached by structural descent. -/
def pruneAt (t : NTree) : List Nat → NTree
  | [] => t
  | [i] => pruneTop t i
  | [i, j] => pruneGrand t i j
  | i :: path =>
      match t.children[i]? with
      | none => t
      | some c => .node t.name t.dist (t.children.set i (pruneAt c path))

/-- Pruning of one name, modelling the inner loop `for node in
t.search_nodes(name=node_name): ...` of `06.prune_tree_nodes.py`: every
matched node is processed in turn.  (The script collects the `ete3` node
references up front; we collect paths.  Every claim below involves names
carried by at most one node, where the two coincide.) -/
def pruneName (t : NTree) (nm : String) : NTree :=
  (t.searchPaths nm).foldl pruneAt t

/-- Character class `[\d\.eE+-]` of the extraction regexes of
`04.filter_trees_by_support.py`. -/
def isNumTok (c : Char) : Bool :=
  c.isDigit || c = '.' || c = 'e' || c = 'E' || c = '+' || c = '-'

/-- Python's `\s` on ASCII input: space, tab, newline, carriage return,
form feed, vertical tab. -/
def isSpaceCh (c : Char) : Bool :=
  c = ' ' || c = '\t' || c = '\n' || c = '\r' || c = '\x0b' || c = '\x0c'

/-- Match the regex `\)\s*([\d\.eE+-]+)\s*:` of `extract_supports` at the
head of the input; on success return the captured token and the characters
after the match. -/
def matchSupport : List Char → Option (List Char × List Char)
  | ')' :: rest =>
      let r1 := rest.dropWhile isSpaceCh
      let tok := r1.takeWhile isNumTok
      if tok.isEmpty then none
      else
        match (r1.dropWhile isNumTok).dropWhile isSpaceCh with
        | ':' :: r3 => some (tok, r3)
        | _ => none
  | _ => none

/-- Match the regex `\)\s*[\d\.eE+-]+\s*:\s*([\d\.eE+-]+)` of
`extract_branch_lengths` at the head of the input; on success return the
captured token (the run after the colon) and the characters after the
match. -/
def matchBranch : List Char → Option (List Char × List Char)
  | ')' :: rest =>
      let r1 := rest.dropWhile isSpaceCh
      let tok := r1.takeWhile isNumTok
      if tok.isEmpty then none
      else
        match (r1.dropWhile isNumTok).dropWhile isSpaceCh with
        | ':' :: r3 =>
            let r4 := r3.dropWhile isSpaceCh
            let tok2 := r4.takeWhile isNumTok
            if tok2.isEmpty then none
            else some (tok2, r4.dropWhile isNumTok)
        | _ => none
  | _ => none

/-- Leftmost, non-overlapping scan of `re.findall`: try the matcher at every
position; on a match, emit the captured token and resume after the match.
Both matchers consume at least one character on success, so fuel equal to
the input length never runs out. -/
def scanGo (m : List Char → Option (List Char × List Char)) :
    Nat → List Char → List (List Char)
  | 0, _ => []
  | _, [] => []
  | fuel + 1, c :: rest =>
      match m (c :: rest) with
      | some (tok, after) => tok :: scanGo m fuel after
      | none => scanGo m fuel rest

/-- Value of a digit string as a natural number. -/
def digitsVal (ds : List Char) : Nat :=
  ds.foldl (fun acc c => 10 * acc + (c.toNat - 48)) 0

/-- Optional leading sign of a numeric token; `true` means non-negative. -/
def parseSignCh : List Char → Bool × List Char
  | '+' :: r => (true, r)
  | '-' :: r => (false, r)
  | r => (true, r)

/-- Exponent part of a float token after the `e`/`E`: an optional sign and
at least one digit, which must exhaust the token; returns the signed
exponent value. -/
def parseExpPart (cs : List Char) : Option Int :=
  let sr := parseSignCh cs
  let ds := sr.2.takeWhile Char.isDigit
  if ds.isEmpty ∨ ¬(sr.2.dropWhile Char.isDigit).isEmpty then none
  else if sr.1 then some (digitsVal ds : Int)
  else some (-(digitsVal ds : Int))

/-- Shape of a float token accepted by Python's `float()` within the
character class `[\d.eE+-]`: optional sign, digits with an optional decimal
point (at least one digit overall), optional `e`/`E` exponent.  The exact
value is returned unevaluated as a pair `(m, e)` standing for `m * 10 ^ e`;
a token of any other shape raises `ValueError` in the script and yields
`none` here. -/
def floatRep (cs : List Char) : Option (Int × Int) :=
  let sr := parseSignCh cs
  let ip := sr.2.takeWhile Char.isDigit
  let r2 := sr.2.dropWhile Char.isDigit
  let mres : Option (Int × Int × List Char) :=
    match r2 with
    | '.' :: r3 =>
        let fp := r3.takeWhile Char.isDigit
        if ip.isEmpty ∧ fp.isEmpty then none
        else some ((digitsVal (ip ++ fp) : Int), -(fp.length : Int),
          r3.dropWhile Char.isDigit)
    | _ =>
        if ip.isEmpty then none
        else some ((digitsVal ip : Int), 0, r2)
  match mres with
  | none => none
  | some (m, e, rest) =>
      let sm : Int := if sr.1 then m else -m
      match rest with
      | [] => some (sm, e)
      | 'e' :: er =>
          match parseExpPart er with
          | some ev => some (sm, e + ev)
          | none => none
      | 'E' :: er =>
          match parseExpPart er with
          | some ev => some (sm, e + ev)
          | none => none
      | _ => none

/-- Exact rational value of a parsed float token `(m, e) = m * 10 ^ e`. -/
def tokVal (r : Int × Int) : ℚ :=
  (r.1 : ℚ) * (10 : ℚ) ^ r.2

/-- `extract_supports` of `04.filter_trees_by_support.py`: all captures of
`re.findall(r'\)\s*([\d\.eE+-]+)\s*:', newick)` converted by `float`.
The result is `none` when some captured token is not a valid float (the
script would raise `ValueError` there). -/
def extract_supports (newick : String) : Option (List ℚ) :=
  ((scanGo matchSupport newick.data.length newick.data).mapM floatRep).map
    (fun l => l.map tokVal)

/-- `extract_branch_lengths` of `04.filter_trees_by_support.py`. -/
def extract_branch_lengths (newick : String) : Option (List ℚ) :=
  ((scanGo matchBranch newick.data.length newick.data).mapM floatRep).map
    (fun l => l.map tokVal)

/-- Python `min` over a nonempty sequence. -/
def listMin : List ℚ → Option ℚ
  | [] => none
  | x :: xs => some (xs.foldl min x)

/-- Decision of `main` in `04.filter_trees_by_support.py` for one input
line: extract supports and branch lengths; with either list empty the line
is discarded (`continue`); otherwise the line is written iff
`min(supports) >= threshold_support and min(branches) >= threshold_branch`.
`none` models the `ValueError` crash on an unconvertible token. -/
def acceptTree (thresholdSupport thresholdBranch : ℚ) (line : String) :
    Option Bool :=
  match extract_supports line, extract_branch_lengths line with
  | some supports, some branches =>
      match listMin supports, listMin branches with
      | some ms, some mb =>
          some (decide (thresholdSupport ≤ ms) && decide (thresholdBranch ≤ mb))
      | _, _ => some false
  | _, _ => none

/-- Loop body of `check_tree_for_groups` in `05.filter-orders.py`: walk the
group table, incrementing the count of covered groups whenever some member
of the group is among the tree's terminal names, returning `True` as soon as
the running count reaches the requirement and `False` when the table is
exhausted. -/
def groupsLoop (terminalNames : List String) (required : Nat) :
    List (String × List String) → Nat → Bool
  | [], _ => false
  | (_, members) :: rest, covered =>
      if required ≤ (if members.any (fun m => terminalNames.contains m)
          then covered + 1 else covered) then true
      else groupsLoop terminalNames required rest
        (if members.any (fun m => terminalNames.contains m)
          then covered + 1 else covered)

/-- `check_tree_for_groups(tree, groups, required_groups_count)` of
`05.filter-orders.py`.  The `groups` dictionary (group label to member ids)
is modelled as an association list with distinct labels. -/
def check_tree_for_groups (t : NTree) (groups : List (String × List String))
    (required : Nat) : Bool :=
  groupsLoop t.leafNames required groups 0

/-- Number of distinct groups of the table having at least one member among
the tree's leaves (the quantity the group-coverage filter is specified to
compare with the requirement). -/
def coveredCount (t : NTree) (groups : List (String × List String)) : Nat :=
  (groups.filter (fun g => g.2.any (fun m => t.leafNames.contains m))).length

/-- The tree `((A:0.1,B:0.2)n1:0.3,(C:0.4,D:0.5)n2:0.6)root;` of the pruning
scenario (the root carries no branch length; `ete3` gives it `dist` 0 on
this input). -/
def treeAB : NTree :=
  .node "root" 0
    [.node "n1" (3/10) [.node "A" (1/10) [], .node "B" (1/5) []],
     .node "n2" (3/5) [.node "C" (2/5) [], .node "D" (1/2) []]]

/-- The tree `((1,2),(3,4));` (no names or branch lengths on internal nodes;
`ete3` parses absent names as `""` and absent branch lengths as `1.0`). -/
def treeEx1 : NTree :=
  .node "" 1
    [.node "" 1 [.node "1" 1 [], .node "2" 1 []],
     .node "" 1 [.node "3" 1 [], .node "4" 1 []]]

/-- The tree `((1,3),(2,4));`. -/
def treeEx2 : NTree :=
  .node "" 1
    [.node "" 1 [.node "1" 1 [], .node "3" 1 []],
     .node "" 1 [.node "2" 1 [], .node "4" 1 []]]

/-- The tree `((1,2,3),4);`. -/
def treeEx3 : NTree :=
  .node "" 1
    [.node "" 1 [.node "1" 1 [], .node "2" 1 [], .node "3" 1 []],
     .node "4" 1 []]

/-- A tree on which an internal node (`X`, carrying two children) with
exactly one sibling and an existing grandparent is pruned:
`(((x1:1,x2:1)X:1,S:2)P:3,O:4)G;`. -/
def treeXg : NTree :=
  .node "G" 0
    [.node "P" 3 [.node "X" 1 [.node "x1" 1 [], .node "x2" 1 []],
                  .node "S" 2 []],
     .node "O" 4 []]

/-- The Newick line of the support/branch filter scenario. -/
def supportScenario : String :=
  "((A:0.1,B:0.2)0.95:0.05,(C:0.15,D:0.18)0.88:0.03)1.0:0.0;"

/-- A small Newick line whose single support is 0.9 and single internal
branch length is 0.3, used to instantiate the filter theorem. -/
def supportSmall : String := "(A:0.1,B:0.2)0.9:0.3;"

/-- Folding `min` over a list bounds from below iff the seed and every
element are bounded. -/
theorem foldl_min_le_iff (c a : ℚ) (l : List ℚ) :
    c ≤ l.foldl min a ↔ c ≤ a ∧ ∀ q ∈ l, c ≤ q := by
  induction l generalizing a with
  | nil => simp
  | cons y ys ih =>
      rw [List.foldl_cons, ih]
      simp only [le_min_iff, List.mem_cons]
      constructor
      · rintro ⟨⟨h1, h2⟩, h3⟩
        exact ⟨h1, fun q hq => hq.elim (fun e => e ▸ h2) (h3 q)⟩
      · rintro ⟨h1, h2⟩
        exact ⟨⟨h1, h2 y (.inl rfl)⟩, fun q hq => h2 q (.inr hq)⟩

/-- C5: the support/branch filter accepts an input tree line if and only if
the extracted sequence of internal-node support values and the extracted
sequence of internal-node branch lengths are both non-empty, every support
value is at least the support threshold and every branch length is at least
the branch threshold; a line whose support or branch sequence is empty is
always rejected. -/
theorem support_branch_filter_accept_iff (ts tb : ℚ) (line : String)
    (ss bs : List ℚ)
    (hs : extract_supports line = some ss)
    (hb : extract_branch_lengths line = some bs) :
    (acceptTree ts tb line = some true ↔
      ss ≠ [] ∧ bs ≠ [] ∧ (∀ q ∈ ss, ts ≤ q) ∧ (∀ q ∈ bs, tb ≤ q)) ∧
    (ss = [] ∨ bs = [] → acceptTree ts tb line = some false) := by
  have hacc : acceptTree ts tb line =
      match listMin ss, listMin bs with
      | some ms, some mb =>
          some (decide (ts ≤ ms) && decide (tb ≤ mb))
      | _, _ => some false := by
    rw [acceptTree, hs, hb]
  constructor
  · rw [hacc]
    cases ss with
    | nil => simp [listMin]
    | cons a l =>
        cases bs with
        | nil => simp [listMin]
        | cons a2 l2 =>
            simp only [listMin]
            constructor
            · intro h
              have h' := Option.some.inj h
              rw [Bool.and_eq_true, decide_eq_true_eq, decide_eq_true_eq] at h'
              have h1 := (foldl_min_le_iff ts a l).mp h'.1
              have h2 := (foldl_min_le_iff tb a2 l2).mp h'.2
              refine ⟨by simp, by simp, ?_, ?_⟩
              · intro q hq
                rcases List.mem_cons.mp hq with e | hq2
                · exact e ▸ h1.1
                · exact h1.2 q hq2
              · intro q hq
                rcases List.mem_cons.mp hq with e | hq2
                · exact e ▸ h2.1
                · exact h2.2 q hq2
            · rintro ⟨-, -, h3, h4⟩
              have h1 : ts ≤ List.foldl min a l :=
                (foldl_min_le_iff ts a l).mpr
                  ⟨h3 a (.head l), fun q hq => h3 q (.tail a hq)⟩
              have h2 : tb ≤ List.foldl min a2 l2 :=
                (foldl_min_le_iff tb a2 l2).mpr
                  ⟨h4 a2 (.head l2), fun q hq => h4 q (.tail a2 hq)⟩
              simp [h1, h2]
  · intro hemp
    rw [hacc]
    rcases hemp with e | e
    · subst e
      cases listMin bs <;> simp [listMin]
    · subst e
      cases listMin ss <;> simp [listMin]

/-- Witness for the filter theorem: on the line `(A:0.1,B:0.2)0.9:0.3;`
(supports `[0.9]`, internal branches `[0.3]`) the filter with thresholds
(0.9, 0.01) accepts. -/
theorem support_branch_filter_accept_iff_witness :
    acceptTree 0.9 0.01 supportSmall = some true := by
  have h1 : extract_supports supportSmall = some [0.9] := by
    rw [extract_supports]
    rw [show (scanGo matchSupport supportSmall.data.length
        supportSmall.data).mapM floatRep = some [(9, -1)] from by decide]
    norm_num [tokVal]
  have h2 : extract_branch_lengths supportSmall = some [0.3] := by
    rw [extract_branch_lengths]
    rw [show (scanGo matchBranch supportSmall.data.length
        supportSmall.data).mapM floatRep = some [(3, -1)] from by decide]
    norm_num [tokVal]
  refine ((support_branch_filter_accept_iff 0.9 0.01 supportSmall
    [0.9] [0.3] h1 h2).1).mpr ⟨by simp, by simp, ?_, ?_⟩
  · intro q hq
    rw [List.mem_singleton] at hq
    subst hq
    norm_num
  · intro q hq
    rw [List.mem_singleton] at hq
    subst hq
    norm_num

/-- C6: on `((A:0.1,B:0.2)0.95:0.05,(C:0.15,D:0.18)0.88:0.03)1.0:0.0;` the
extraction returns supports `[0.95, 0.88, 1.0]` and internal branch lengths
`[0.05, 0.03, 0.0]`, and with thresholds support ≥ 0.9 and branch ≥ 0.0 the
tree is rejected (0.88 < 0.9). -/
theorem support_scenario_extraction :
    extract_supports supportScenario = some [0.95, 0.88, 1.0] ∧
    extract_branch_lengths supportScenario = some [0.05, 0.03, 0.0] ∧
    acceptTree 0.9 0.0 supportScenario = some false := by
  refine ⟨?_, ?_, ?_⟩
  · rw [extract_supports]
    rw [show (scanGo matchSupport supportScenario.data.length
        supportScenario.data).mapM floatRep
      = some [(95, -2), (88, -2), (10, -1)] from by decide]
    norm_num [tokVal]
  · rw [extract_branch_lengths]
    rw [show (scanGo matchBranch supportScenario.data.length
        supportScenario.data).mapM floatRep
      = some [(5, -2), (3, -2), (0, -1)] from by decide]
    norm_num [tokVal]
  · rw [acceptTree, extract_supports, extract_branch_lengths]
    rw [show (scanGo matchSupport supportScenario.data.length
        supportScenario.data).mapM floatRep
      = some [(95, -2), (88, -2), (10, -1)] from by decide]
    rw [show (scanGo matchBranch supportScenario.data.length
        supportScenario.data).mapM floatRep
      = some [(5, -2), (3, -2), (0, -1)] from by decide]
    norm_num [tokVal, listMin, min_def]


/-- Loop invariant of `check_tree_for_groups`: on a non-empty group table
the loop returns `true` exactly when the accumulator plus the number of
covered groups of the remaining table reaches the requirement. -/
theorem groupsLoop_true_iff (names : List String) (req : Nat) :
    ∀ (gs : List (String × List String)) (c : Nat), gs ≠ [] →
      (groupsLoop names req gs c = true ↔
        req ≤ c + (gs.filter
          (fun g => g.2.any (fun m => names.contains m))).length) := by
  intro gs
  induction gs with
  | nil => intro c h; exact absurd rfl h
  | cons g rest ih =>
      intro c _
      obtain ⟨lab, mems⟩ := g
      cases hcov : mems.any (fun m => names.contains m) with
      | true =>
          simp only [groupsLoop, List.filter_cons, List.length_cons, hcov,
            if_true]
          by_cases hreq : req ≤ c + 1
          · rw [if_pos hreq]
            constructor
            · intro _; omega
            · intro _; rfl
          · rw [if_neg hreq]
            cases rest with
            | nil =>
                simp only [groupsLoop, List.filter_nil, List.length_nil]
                constructor
                · intro h; cases h
                · intro h; omega
            | cons r rs =>
                rw [ih (c + 1) (by simp)]
                constructor <;> intro h <;> omega
      | false =>
          simp only [groupsLoop, List.filter_cons, hcov, Bool.false_eq_true,
            if_false]
          by_cases hreq : req ≤ c
          · rw [if_pos hreq]
            constructor
            · intro _; omega
            · intro _; rfl
          · rw [if_neg hreq]
            cases rest with
            | nil =>
                simp only [groupsLoop, List.filter_nil, List.length_nil]
                constructor
                · intro h; cases h
                · intro h; omega
            | cons r rs =>
                rw [ih c (by simp)]

/-- C8 counterexample: with the empty mapping and required count 0, the
filter rejects every tree although the number of covered groups (0) does
meet the requirement `0 ≤ 0`, so "accept iff covered groups ≥ g" fails for
every tree at the empty mapping with g = 0. -/
theorem group_coverage_empty_mapping_counterexample :
    ¬(check_tree_for_groups treeEx1 [] 0 = true ↔
      0 ≤ coveredCount treeEx1 []) := by decide

/-- C8 (amended): for a non-empty species-to-group mapping the filter
accepts a tree iff the number of distinct groups with at least one leaf
present in the tree reaches the required count `g` (every tree, every `g`,
including `g = 0` and trees with no mapped species); with an empty mapping
the filter always rejects, even when `g = 0`. -/
theorem group_coverage_filter_accept_iff (t : NTree)
    (groups : List (String × List String)) (g : Nat) (hne : groups ≠ []) :
    (check_tree_for_groups t groups g = true ↔ g ≤ coveredCount t groups) ∧
    (∀ g2 : Nat, check_tree_for_groups t [] g2 = false) := by
  constructor
  · rw [check_tree_for_groups,
      groupsLoop_true_iff t.leafNames g groups 0 hne, coveredCount]
    omega
  · intro g2
    rfl

/-- Witness: the mapping `{O1 ↦ [1, 9], O2 ↦ [zz]}` covers exactly one
group of the tree `((1,2),(3,4));`, so the filter with requirement 1
accepts it. -/
theorem group_coverage_filter_accept_iff_witness :
    (check_tree_for_groups treeEx1 [("O1", ["1", "9"]), ("O2", ["zz"])] 1
        = true ↔
      1 ≤ coveredCount treeEx1 [("O1", ["1", "9"]), ("O2", ["zz"])]) ∧
    (∀ g2 : Nat, check_tree_for_groups treeEx1 [] g2 = false) :=
  group_coverage_filter_accept_iff treeEx1
    [("O1", ["1", "9"]), ("O2", ["zz"])] 1 (by simp)

/-- C3 counterexample: on `((1,2,3),4);` with A = {1,2}, B = {3,4} both
members of B ("3" and "4") are present among the leaves, so contrary to
the scenario the tree is not skipped: it is counted and classified
Shared. -/
theorem wgd_scenario_counterexample :
    wgdClassify {"1", "2"} {"3", "4"} treeEx3 = WgdCat.shared ∧
    wgdClassify {"1", "2"} {"3", "4"} treeEx3 ≠ WgdCat.skip ∧
    ({"3", "4"} : Finset String) ∩ treeEx3.leafSet = {"3", "4"} := by decide

/-- C3 (amended): for every tree and disjoint target name sets A and B, the
WGD classifier skips exactly the trees where fewer than 2 members of A or
fewer than 2 members of B are present among the leaves; a counted tree is
Independent iff both present-member sets are monophyletic, Shared iff
neither is, Uncertain iff exactly one is.  `((1,2),(3,4));` is Independent
and `((1,3),(2,4));` is Shared; in `((1,2,3),4);` both members of each set
are present, so it is counted (and classified Shared), not skipped. -/
theorem wgd_classifier_cases (A B : Finset String) (t : NTree)
    (hAB : Disjoint A B) :
    (wgdClassify A B t = WgdCat.skip ↔
      (A ∩ t.leafSet).card < 2 ∨ (B ∩ t.leafSet).card < 2) ∧
    (wgdClassify A B t = WgdCat.independent ↔
      2 ≤ (A ∩ t.leafSet).card ∧ 2 ≤ (B ∩ t.leafSet).card ∧
      t.check_monophyly (A ∩ t.leafSet) = true ∧
      t.check_monophyly (B ∩ t.leafSet) = true) ∧
    (wgdClassify A B t = WgdCat.shared ↔
      2 ≤ (A ∩ t.leafSet).card ∧ 2 ≤ (B ∩ t.leafSet).card ∧
      t.check_monophyly (A ∩ t.leafSet) = false ∧
      t.check_monophyly (B ∩ t.leafSet) = false) ∧
    (wgdClassify A B t = WgdCat.uncertain ↔
      2 ≤ (A ∩ t.leafSet).card ∧ 2 ≤ (B ∩ t.leafSet).card ∧
      t.check_monophyly (A ∩ t.leafSet) ≠ t.check_monophyly (B ∩ t.leafSet)) ∧
    wgdClassify {"1", "2"} {"3", "4"} treeEx1 = WgdCat.independent ∧
    wgdClassify {"1", "2"} {"3", "4"} treeEx2 = WgdCat.shared ∧
    wgdClassify {"1", "2"} {"3", "4"} treeEx3 = WgdCat.shared := by
  refine ⟨?_, ?_, ?_, ?_, by decide, by decide, by decide⟩
  · by_cases hskip : (A ∩ t.leafSet).card < 2 ∨ (B ∩ t.leafSet).card < 2
    · simp only [wgdClassify, if_pos hskip]
      simp [hskip]
    · simp only [wgdClassify, if_neg hskip]
      cases hA : t.check_monophyly (A ∩ t.leafSet) <;>
        cases hB : t.check_monophyly (B ∩ t.leafSet) <;>
        simp [hA, hB, hskip]
  · by_cases hskip : (A ∩ t.leafSet).card < 2 ∨ (B ∩ t.leafSet).card < 2
    · simp only [wgdClassify, if_pos hskip]
      constructor
      · intro h; exact WgdCat.noConfusion h
      · rintro ⟨h1, h2, -, -⟩; omega
    · simp only [wgdClassify, if_neg hskip]
      cases hA : t.check_monophyly (A ∩ t.leafSet) <;>
        cases hB : t.check_monophyly (B ∩ t.leafSet) <;>
        simp [hA, hB] <;> omega
  · by_cases hskip : (A ∩ t.leafSet).card < 2 ∨ (B ∩ t.leafSet).card < 2
    · simp only [wgdClassify, if_pos hskip]
      constructor
      · intro h; exact WgdCat.noConfusion h
      · rintro ⟨h1, h2, -, -⟩; omega
    · simp only [wgdClassify, if_neg hskip]
      cases hA : t.check_monophyly (A ∩ t.leafSet) <;>
        cases hB : t.check_monophyly (B ∩ t.leafSet) <;>
        simp [hA, hB] <;> omega
  · by_cases hskip : (A ∩ t.leafSet).card < 2 ∨ (B ∩ t.leafSet).card < 2
    · simp only [wgdClassify, if_pos hskip]
      constructor
      · intro h; exact WgdCat.noConfusion h
      · rintro ⟨h1, h2, -⟩; omega
    · simp only [wgdClassify, if_neg hskip]
      cases hA : t.check_monophyly (A ∩ t.leafSet) <;>
        cases hB : t.check_monophyly (B ∩ t.leafSet) <;>
        simp [hA, hB] <;> omega

/-- Witness: the classifier theorem instantiated on `((1,2),(3,4));` with
A = {1,2}, B = {3,4} (disjoint). -/
theorem wgd_classifier_cases_witness :
    wgdClassify {"1", "2"} {"3", "4"} treeEx1 = WgdCat.independent :=
  (wgd_classifier_cases {"1", "2"} {"3", "4"} treeEx1 (by decide)).2.2.2.2.1

/-- C4: the WGT classifier is total (every parsed tree is counted as
NonShared or Shared, with no minimum presence requirement), a target set
with at most one member present is treated as monophyletic, and the tree is
NonShared iff A or B is (effectively) monophyletic, Shared iff neither
is. -/
theorem wgt_classifier_cases (A B : Finset String) (t : NTree) :
    ((A ∩ t.leafSet).card ≤ 1 → wgtMono A t = true) ∧
    ((B ∩ t.leafSet).card ≤ 1 → wgtMono B t = true) ∧
    (wgtClassify A B t = WgtCat.nonShared ↔
      wgtMono A t = true ∨ wgtMono B t = true) ∧
    (wgtClassify A B t = WgtCat.shared ↔
      wgtMono A t = false ∧ wgtMono B t = false) ∧
    (wgtClassify A B t = WgtCat.nonShared ∨
      wgtClassify A B t = WgtCat.shared) := by
  refine ⟨?_, ?_, ?_, ?_, ?_⟩
  · intro h
    rw [wgtMono, if_neg (by omega)]
  · intro h
    rw [wgtMono, if_neg (by omega)]
  · cases hA : wgtMono A t <;> cases hB : wgtMono B t <;>
      simp [wgtClassify, hA, hB]
  · cases hA : wgtMono A t <;> cases hB : wgtMono B t <;>
      simp [wgtClassify, hA, hB]
  · cases hA : wgtMono A t <;> cases hB : wgtMono B t <;>
      simp [wgtClassify, hA, hB]

/-- Witness: on `((1,2),(3,4));` the set `{9}` has no member present, so
the WGT classifier treats it as monophyletic. -/
theorem wgt_classifier_cases_witness : wgtMono {"9"} treeEx1 = true :=
  (wgt_classifier_cases {"9"} {"1", "2"} treeEx1).1 (by decide)

/-- Helper: the WGD loop preserves the invariant "category counts sum to
the number of counted trees". -/
theorem wgdRun_inv (A B : Finset String) :
    ∀ (ts : List (Option NTree)) (st : WgdStats),
      st.independent + st.shared + st.uncertain = st.total →
      (ts.foldl (wgdStep A B) st).independent +
        (ts.foldl (wgdStep A B) st).shared +
        (ts.foldl (wgdStep A B) st).uncertain =
        (ts.foldl (wgdStep A B) st).total := by
  intro ts
  induction ts with
  | nil => intro st h; simpa using h
  | cons pt rest ih =>
      intro st h
      rw [List.foldl_cons]
      apply ih
      cases pt with
      | none => simpa [wgdStep] using h
      | some t =>
          cases hc : wgdClassify A B t <;> simp [wgdStep, hc] <;> omega

/-- Helper: the WGT loop preserves the invariant "both category counts sum
to the number of counted trees". -/
theorem wgtRun_inv (A B : Finset String) :
    ∀ (ts : List (Option NTree)) (st : WgtStats),
      st.nonShared + st.shared = st.total →
      (ts.foldl (wgtStep A B) st).nonShared +
        (ts.foldl (wgtStep A B) st).shared =
        (ts.foldl (wgtStep A B) st).total := by
  intro ts
  induction ts with
  | nil => intro st h; simpa using h
  | cons pt rest ih =>
      intro st h
      rw [List.foldl_cons]
      apply ih
      cases pt with
      | none => simpa [wgtStep] using h
      | some t =>
          cases hc : wgtClassify A B t <;> simp [wgtStep, hc] <;> omega

/-- C9: in both classification loops the category counts partition the
counted trees: independent + shared + uncertain = total for WGD, and
nonShared + shared = total for WGT, for every batch of parse results. -/
theorem classification_counts_partition (A B : Finset String)
    (ts : List (Option NTree)) :
    (wgdRun A B ts).independent + (wgdRun A B ts).shared +
      (wgdRun A B ts).uncertain = (wgdRun A B ts).total ∧
    (wgtRun A B ts).nonShared + (wgtRun A B ts).shared =
      (wgtRun A B ts).total :=
  ⟨wgdRun_inv A B ts ⟨0, 0, 0, 0⟩ rfl, wgtRun_inv A B ts ⟨0, 0, 0⟩ rfl⟩

/-- Helper: a batch of only parse failures and skipped trees leaves the WGD
counters unchanged. -/
theorem wgdRun_all_skipped (A B : Finset String) :
    ∀ (ts : List (Option NTree)) (st : WgdStats),
      (∀ pt ∈ ts, pt = none ∨
        ∃ t, pt = some t ∧ wgdClassify A B t = WgdCat.skip) →
      ts.foldl (wgdStep A B) st = st := by
  intro ts
  induction ts with
  | nil => intro st _; rfl
  | cons pt rest ih =>
      intro st h
      rw [List.foldl_cons]
      have hstep : wgdStep A B st pt = st := by
        rcases h pt (List.mem_cons_self pt rest) with e | ⟨t, e, hc⟩
        · subst e; rfl
        · subst e; simp [wgdStep, hc]
      rw [hstep]
      exact ih st (fun q hq => h q (List.mem_cons_of_mem pt hq))

/-- C10: the WGD summary writer emits a row iff at least one tree was
counted (`total > 0`), so a file whose trees are all skipped or malformed
is absent from the summary; the WGT summary writer always produces a row,
with both ratios 0 when no tree was counted. -/
theorem summary_row_emission (A B : Finset String) (f : String)
    (ts : List (Option NTree)) (st : WgdStats) (stw : WgtStats) :
    (wgdSummaryRow f st = none ↔ st.total = 0) ∧
    ((∀ pt ∈ ts, pt = none ∨
        ∃ t, pt = some t ∧ wgdClassify A B t = WgdCat.skip) →
      wgdSummaryRow f (wgdRun A B ts) = none) ∧
    (stw.total = 0 →
      (wgtSummaryRow f stw).ratioNonShared = 0 ∧
      (wgtSummaryRow f stw).ratioShared = 0) := by
  refine ⟨?_, ?_, ?_⟩
  · simp only [wgdSummaryRow]
    by_cases h : 0 < st.total
    · rw [if_pos h]
      simp
      omega
    · rw [if_neg h]
      simp
      omega
  · intro h
    rw [wgdRun, wgdRun_all_skipped A B ts ⟨0, 0, 0, 0⟩ h]
    rfl
  · intro h
    rw [wgtSummaryRow, if_neg (by omega)]
    exact ⟨rfl, rfl⟩

/-- The tree `((1,2),3);`: only one member of B = {3,4} is present, so the
WGD classifier skips it. -/
def treeSkip : NTree :=
  .node "" 1
    [.node "" 1 [.node "1" 1 [], .node "2" 1 []], .node "3" 1 []]

/-- Witness: a file consisting of one malformed tree and one skipped tree
gets no WGD summary row, and an empty WGT tally reports both ratios as
0. -/
theorem summary_row_emission_witness :
    wgdSummaryRow "file.nwk"
      (wgdRun {"1", "2"} {"3", "4"} [none, some treeSkip]) = none ∧
    (wgtSummaryRow "file.nwk" ⟨0, 0, 0⟩).ratioNonShared = 0 ∧
    (wgtSummaryRow "file.nwk" ⟨0, 0, 0⟩).ratioShared = 0 := by
  have h := summary_row_emission {"1", "2"} {"3", "4"} "file.nwk"
    [none, some treeSkip] ⟨0, 0, 0, 0⟩ ⟨0, 0, 0⟩
  refine ⟨h.2.1 ?_, (h.2.2 rfl).1, (h.2.2 rfl).2⟩
  intro pt hpt
  rcases List.mem_cons.mp hpt with e | hpt2
  · exact Or.inl e
  · right
    refine ⟨treeSkip, ?_, by decide⟩
    rcases List.mem_cons.mp hpt2 with e | h3
    · exact e
    · exact absurd h3 (List.not_mem_nil _)

/-- Searching a forest in which no tree matches yields no path. -/
theorem searchPathsL_eq_nil (nm : String) :
    ∀ (cs : List NTree), (∀ c ∈ cs, NTree.searchPaths nm c = []) →
      ∀ i, NTree.searchPathsL nm i cs = [] := by
  intro cs
  induction cs with
  | nil => intro _ i; rfl
  | cons c rest ih =>
      intro h i
      rw [NTree.searchPathsL, h c (List.mem_cons_self c rest)]
      rw [ih (fun x hx => h x (List.mem_cons_of_mem c hx)) (i + 1)]
      rfl

/-- A name that is not any node's name is matched nowhere. -/
theorem searchPaths_eq_nil (nm : String) :
    ∀ t : NTree, nm ∉ t.nodeNames → NTree.searchPaths nm t = [] :=
  @NTree.inductionOn
    (fun t => nm ∉ t.nodeNames → NTree.searchPaths nm t = [])
    (fun n d cs ih h => by
      rw [NTree.nodeNames] at h
      have hn : ¬(n = nm) := fun e => h (e ▸ List.mem_cons_self n _)
      have hcs : ∀ c ∈ cs, NTree.searchPaths nm c = [] := by
        intro c hc
        refine ih c hc (fun hmem => h (List.mem_cons_of_mem n ?_))
        clear ih hn h
        induction cs with
        | nil => exact absurd hc (List.not_mem_nil c)
        | cons x xs ihx =>
            rw [NTree.nodeNamesL]
            rcases List.mem_cons.mp hc with e | hc2
            · exact List.mem_append_left _ (e ▸ hmem)
            · exact List.mem_append_right _ (ihx hc2)
      rw [NTree.searchPaths, if_neg hn, searchPathsL_eq_nil nm cs hcs 0]
      rfl)

/-- C7: pruning a name that is not present as any node name leaves the tree
structurally identical — in particular the leaf set and the total
branch-length sum are unchanged — and the operation is total (the script
reports no error; an unmatched name is a silent no-op). -/
theorem prune_missing_name_noop (t : NTree) (nm : String)
    (h : nm ∉ t.nodeNames) :
    pruneName t nm = t ∧
    (pruneName t nm).leafNames = t.leafNames ∧
    (pruneName t nm).totalDist = t.totalDist := by
  have hs := searchPaths_eq_nil nm t h
  rw [pruneName, hs]
  exact ⟨rfl, rfl, rfl⟩

/-- Witness: pruning the absent name `Z` from the scenario tree
`((A:0.1,B:0.2)n1:0.3,(C:0.4,D:0.5)n2:0.6)root;` changes nothing. -/
theorem prune_missing_name_noop_witness :
    pruneName treeAB "Z" = treeAB ∧
    (pruneName treeAB "Z").leafNames = treeAB.leafNames ∧
    (pruneName treeAB "Z").totalDist = treeAB.totalDist :=
  prune_missing_name_noop treeAB "Z" (by decide)

/-- C2 counterexample: pruning `{B}` from
`((A:0.1,B:0.2)n1:0.3,(C:0.4,D:0.5)n2:0.6)root;` attaches `A` to the root
(where `n1` was attached) with the new branch length 0.3 + 0.1 = 0.4, not
0.1: `A`'s own branch length is changed by the reconnection rule
(`parent.dist + sibling.dist`), and 0.4 ≠ 0.1. -/
theorem prune_scenario_counterexample :
    pruneName treeAB "B" =
      NTree.node "root" 0
        [NTree.node "n2" (3/5)
          [NTree.node "C" (2/5) [], NTree.node "D" (1/2) []],
         NTree.node "A" (3/10 + 1/10) []] ∧
    (3/10 + 1/10 : ℚ) = 2/5 ∧ (2/5 : ℚ) ≠ 1/10 :=
  ⟨rfl, by norm_num, by norm_num⟩

/-- C2 (amended): pruning `{B}` yields a tree in which leaf `A` is attached
directly to the root — the reconnection point, where its former parent `n1`
hung — with new branch length 0.3 + 0.1 = 0.4 (n1's branch length absorbed
into A's); the path length from the root down to `A` is conserved at 0.4,
as the before/after leaf-depth tables show. -/
theorem prune_scenario_result :
    pruneName treeAB "B" =
      NTree.node "root" 0
        [NTree.node "n2" (3/5)
          [NTree.node "C" (2/5) [], NTree.node "D" (1/2) []],
         NTree.node "A" (3/10 + 1/10) []] ∧
    (pruneName treeAB "B").leafDepths =
      [("C", 1), ("D", 11/10), ("A", 2/5)] ∧
    treeAB.leafDepths =
      [("A", 2/5), ("B", 1/2), ("C", 1), ("D", 11/10)] := by
  refine ⟨rfl, ?_, ?_⟩
  · rw [show pruneName treeAB "B" =
      NTree.node "root" 0
        [NTree.node "n2" (3/5)
          [NTree.node "C" (2/5) [], NTree.node "D" (1/2) []],
         NTree.node "A" (3/10 + 1/10) []] from rfl]
    simp only [NTree.leafDepths, NTree.leafDepthsL]
    norm_num
  · rw [treeAB]
    simp only [NTree.leafDepths, NTree.leafDepthsL]
    norm_num

/-- Indexing an append at the length of the left part hits the head of the
right part. -/
theorem getElem?_append_len {α : Type} (l₁ l₂ : List α) (a : α) :
    (l₁ ++ a :: l₂)[l₁.length]? = some a := by
  rw [List.getElem?_append_right (le_refl _)]
  simp

/-- Erasing at the length of the left part removes the head of the right
part. -/
theorem eraseIdx_append_len {α : Type} (l₁ l₂ : List α) (a : α) :
    (l₁ ++ a :: l₂).eraseIdx l₁.length = l₁ ++ l₂ := by
  induction l₁ with
  | nil => rfl
  | cons b bs ih => simp [List.eraseIdx, ih]

/-- Setting at the length of the left part replaces the head of the right
part. -/
theorem set_append_len {α : Type} (l₁ l₂ : List α) (a b : α) :
    (l₁ ++ a :: l₂).set l₁.length b = l₁ ++ b :: l₂ := by
  induction l₁ with
  | nil => rfl
  | cons c cs ih => simp [ih]

/-- Reattaching a subtree with branch length `pd + s.dist` shifts every
leaf depth of `s` by exactly `pd`: the new depths under the reattachment
point equal the old depths measured from `s`'s former grandparent through
the removed parent edge. -/
theorem leafDepths_shift (s : NTree) (pd : ℚ) :
    (NTree.node s.name (pd + s.dist) s.children).leafDepths =
      s.leafDepths.map (fun e => (e.1, pd + e.2)) := by
  cases s with
  | node n d cs =>
      cases cs with
      | nil =>
          simp [NTree.leafDepths, NTree.name, NTree.dist, NTree.children]
      | cons c rest =>
          simp only [NTree.name, NTree.dist, NTree.children,
            NTree.leafDepths, List.map_map]
          refine List.map_congr_left ?_
          intro e _
          simp [Function.comp_def, add_assoc]

/-- Node names of an appended forest. -/
theorem nodeNamesL_append (l₁ l₂ : List NTree) :
    NTree.nodeNamesL (l₁ ++ l₂) =
      NTree.nodeNamesL l₁ ++ NTree.nodeNamesL l₂ := by
  induction l₁ with
  | nil => rfl
  | cons c cs ih => simp [NTree.nodeNamesL, ih]

/-- Every tree's node-name list starts with its own name. -/
theorem nodeNames_decompose (t : NTree) :
    t.nodeNames = t.name :: NTree.nodeNamesL t.children := by
  cases t
  rfl

/-- Explicit form of the pruning surgery when the matched node `x` has
exactly one sibling `s` and the grandparent `g` exists: `s` is reattached
to `g` with branch length `pd + s.dist`; when `x` carries fewer than 2
children the parent is dissolved into `g` as well, otherwise the parent
survives holding `x`'s children. -/
theorem pruneGrand_one_sibling (gn pn : String) (gd pd : ℚ)
    (gpre gpost : List NTree) (x s : NTree) (j : Nat) (pcs : List NTree)
    (hj : (j = 0 ∧ pcs = [x, s]) ∨ (j = 1 ∧ pcs = [s, x])) :
    pruneGrand (NTree.node gn gd (gpre ++ NTree.node pn pd pcs :: gpost))
        gpre.length j =
      (if x.children.length < 2 then
        NTree.node gn gd (gpre ++ gpost ++
          [NTree.node s.name (pd + s.dist) s.children] ++ x.children)
      else
        NTree.node gn gd (gpre ++ NTree.node pn pd x.children ::
          (gpost ++ [NTree.node s.name (pd + s.dist) s.children]))) := by
  rcases hj with ⟨hj, hpcs⟩ | ⟨hj, hpcs⟩ <;> subst hj <;> subst hpcs <;>
    simp only [pruneGrand, NTree.children, NTree.name, NTree.dist,
      getElem?_append_len, eraseIdx_append_len, set_append_len,
      List.eraseIdx] <;>
    by_cases hx : x.children.length < 2 <;>
    simp [hx, List.append_assoc]

/-- C1 (amended): when the removed node `x` has exactly one sibling `s` and
a grandparent exists, the sibling is reattached to the grandparent with new
branch length `parent.dist + s.dist`, and the leaf depths of the reattached
sibling are exactly the old ones shifted by `parent.dist` — so the sum of
branch lengths from the reconnection point (the grandparent) to every
descendant leaf of `s` is unchanged.  The removed node is no longer present
(its name, unique in the tree, is gone); its former parent is gone exactly
when the removed node had fewer than 2 children (in particular when it is a
leaf) — when the removed node is internal with 2 or more children,
`ete3`'s `delete` hoists those children into the parent and the parent
survives, contradicting the claim as stated. -/
theorem prune_one_sibling_grandparent (gn pn : String) (gd pd : ℚ)
    (gpre gpost : List NTree) (x s : NTree) (j : Nat) (pcs : List NTree)
    (hj : (j = 0 ∧ pcs = [x, s]) ∨ (j = 1 ∧ pcs = [s, x]))
    (hx : ((NTree.node gn gd
      (gpre ++ NTree.node pn pd pcs :: gpost)).nodeNames).count x.name = 1)
    (hp : ((NTree.node gn gd
      (gpre ++ NTree.node pn pd pcs :: gpost)).nodeNames).count pn = 1) :
    pruneGrand (NTree.node gn gd (gpre ++ NTree.node pn pd pcs :: gpost))
        gpre.length j =
      (if x.children.length < 2 then
        NTree.node gn gd (gpre ++ gpost ++
          [NTree.node s.name (pd + s.dist) s.children] ++ x.children)
      else
        NTree.node gn gd (gpre ++ NTree.node pn pd x.children ::
          (gpost ++ [NTree.node s.name (pd + s.dist) s.children]))) ∧
    (NTree.node s.name (pd + s.dist) s.children).leafDepths =
      s.leafDepths.map (fun e => (e.1, pd + e.2)) ∧
    x.name ∉ (pruneGrand (NTree.node gn gd
      (gpre ++ NTree.node pn pd pcs :: gpost)) gpre.length j).nodeNames ∧
    (x.children.length < 2 → pn ∉ (pruneGrand (NTree.node gn gd
      (gpre ++ NTree.node pn pd pcs :: gpost)) gpre.length j).nodeNames) ∧
    (2 ≤ x.children.length → pn ∈ (pruneGrand (NTree.node gn gd
      (gpre ++ NTree.node pn pd pcs :: gpost)) gpre.length j).nodeNames) := by
  obtain ⟨xn, xd, xc⟩ := x
  obtain ⟨sn, sd, sc⟩ := s
  rcases hj with ⟨hj0, hpcs⟩ | ⟨hj0, hpcs⟩
  · subst hj0
    subst hpcs
    have key := pruneGrand_one_sibling gn pn gd pd gpre gpost
      (NTree.node xn xd xc) (NTree.node sn sd sc) 0 _ (Or.inl ⟨rfl, rfl⟩)
    refine ⟨key, leafDepths_shift _ pd, ?_, ?_, ?_⟩
    · rw [key]
      by_cases hc : (NTree.node xn xd xc).children.length < 2
      · rw [if_pos hc, ← List.count_eq_zero]
        simp only [NTree.nodeNames, NTree.name, NTree.children, NTree.dist,
          nodeNamesL_append,
          NTree.nodeNamesL, List.append_nil, List.count_cons,
          List.count_append, List.count_nil, beq_self_eq_true,
          eq_self_iff_true, if_true] at hx ⊢
        omega
      · rw [if_neg hc, ← List.count_eq_zero]
        simp only [NTree.nodeNames, NTree.name, NTree.children, NTree.dist,
          nodeNamesL_append,
          NTree.nodeNamesL, List.append_nil, List.count_cons,
          List.count_append, List.count_nil, beq_self_eq_true,
          eq_self_iff_true, if_true] at hx ⊢
        omega
    · intro hc
      rw [key, if_pos hc, ← List.count_eq_zero]
      simp only [NTree.nodeNames, NTree.name, NTree.children, NTree.dist,
        nodeNamesL_append,
        NTree.nodeNamesL, List.append_nil, List.count_cons,
        List.count_append, List.count_nil, beq_self_eq_true,
        eq_self_iff_true, if_true] at hp ⊢
      omega
    · intro hc
      rw [key, if_neg (by simp only [NTree.children] at hc ⊢; omega)]
      simp [NTree.nodeNames, nodeNamesL_append, NTree.nodeNamesL,
        List.mem_cons, List.mem_append]
  · subst hj0
    subst hpcs
    have key := pruneGrand_one_sibling gn pn gd pd gpre gpost
      (NTree.node xn xd xc) (NTree.node sn sd sc) 1 _ (Or.inr ⟨rfl, rfl⟩)
    refine ⟨key, leafDepths_shift _ pd, ?_, ?_, ?_⟩
    · rw [key]
      by_cases hc : (NTree.node xn xd xc).children.length < 2
      · rw [if_pos hc, ← List.count_eq_zero]
        simp only [NTree.nodeNames, NTree.name, NTree.children, NTree.dist,
          nodeNamesL_append,
          NTree.nodeNamesL, List.append_nil, List.count_cons,
          List.count_append, List.count_nil, beq_self_eq_true,
          eq_self_iff_true, if_true] at hx ⊢
        omega
      · rw [if_neg hc, ← List.count_eq_zero]
        simp only [NTree.nodeNames, NTree.name, NTree.children, NTree.dist,
          nodeNamesL_append,
          NTree.nodeNamesL, List.append_nil, List.count_cons,
          List.count_append, List.count_nil, beq_self_eq_true,
          eq_self_iff_true, if_true] at hx ⊢
        omega
    · intro hc
      rw [key, if_pos hc, ← List.count_eq_zero]
      simp only [NTree.nodeNames, NTree.name, NTree.children, NTree.dist,
        nodeNamesL_append,
        NTree.nodeNamesL, List.append_nil, List.count_cons,
        List.count_append, List.count_nil, beq_self_eq_true,
        eq_self_iff_true, if_true] at hp ⊢
      omega
    · intro hc
      rw [key, if_neg (by simp only [NTree.children] at hc ⊢; omega)]
      simp [NTree.nodeNames, nodeNamesL_append, NTree.nodeNamesL,
        List.mem_cons, List.mem_append]

/-- C1 counterexample: in `(((x1:1,x2:1)X:1,S:2)P:3,O:4)G;` the node `X`
has exactly one sibling (`S`) and a grandparent (`G`), yet after pruning
`X` its former parent `P` is still present in the tree (holding `X`'s
children), because `X` has two children; only `X` itself disappears.  (The
sibling is still reattached to `G` with branch length 3 + 2.) -/
theorem prune_parent_survives_counterexample :
    pruneName treeXg "X" =
      NTree.node "G" 0
        [NTree.node "P" 3 [NTree.node "x1" 1 [], NTree.node "x2" 1 []],
         NTree.node "O" 4 [],
         NTree.node "S" (3 + 2) []] ∧
    "P" ∈ (pruneName treeXg "X").nodeNames ∧
    "X" ∉ (pruneName treeXg "X").nodeNames :=
  ⟨rfl, by decide, by decide⟩

/-- Witness: pruning the leaf `Xl` (one sibling `S`, grandparent `G`)
removes both `Xl` and its former parent `P` from the tree. -/
theorem prune_one_sibling_grandparent_witness :
    "Xl" ∉ (pruneGrand (NTree.node "G" 0 [NTree.node "P" 3
      [NTree.node "Xl" 1 [], NTree.node "S" 2 []], NTree.node "O" 4 []])
      0 0).nodeNames ∧
    "P" ∉ (pruneGrand (NTree.node "G" 0 [NTree.node "P" 3
      [NTree.node "Xl" 1 [], NTree.node "S" 2 []], NTree.node "O" 4 []])
      0 0).nodeNames := by
  have h := prune_one_sibling_grandparent "G" "P" 0 3 [] [NTree.node "O" 4 []]
    (NTree.node "Xl" 1 []) (NTree.node "S" 2 []) 0
    [NTree.node "Xl" 1 [], NTree.node "S" 2 []]
    (Or.inl ⟨rfl, rfl⟩) (by decide) (by decide)
  exact ⟨h.2.2.1, h.2.2.2.1 (by decide)⟩
